import Mathlib

/-!
Verification of the aloxide core (version model, build orchestrator,
archive quirk filter, link-flag translator) against its specification.

Modelling conventions:
* Rust strings are modelled as `List Char`; the strings appearing in the
  claims are ASCII, so byte positions and char positions coincide and the
  byte length equals the list length.
* Machine integers (`u16`, byte values) are modelled as `Nat`; the `u16`
  range constraint appears as an explicit `< 65536` bound where relevant.
* Fallible operations return `Except`/`Option`; a Rust panic (slice out of
  bounds, arithmetic underflow in debug, `unimplemented!`) is modelled as a
  distinct `none`/`panicked` outcome.
* Process spawning and the filesystem are modelled as explicit inputs: an
  environment record says which marker files exist and what each external
  command would report, and the configuration-query collaborator is a record
  of the configuration strings the installed runtime would return.
-/

namespace Aloxide

/-! ## Generic list/char utilities (crate `util` and `std` functions) -/

/-- `memchr(byte, haystack)`: index of the first occurrence, as used by
`VersionParser::parse` and `ends_with_slash`. -/
def memchr {α : Type} [DecidableEq α] (b : α) : List α → Option Nat
  | [] => none
  | c :: rest => if c = b then some 0 else (memchr b rest).map (· + 1)

/-- Rust `char::is_ascii_whitespace`: space, tab, line feed, form feed,
carriage return. -/
def isAsciiWhitespace (c : Char) : Bool :=
  c = ' ' || c = '\t' || c = '\n' || c = Char.ofNat 12 || c = '\r'

/-- Accumulator-based worker for `split_ascii_whitespace`. -/
def splitWsAux : List Char → List Char → List (List Char)
  | [], acc => if acc = [] then [] else [acc.reverse]
  | c :: rest, acc =>
    if isAsciiWhitespace c then
      if acc = [] then splitWsAux rest []
      else acc.reverse :: splitWsAux rest []
    else splitWsAux rest (c :: acc)

/-- Rust `str::split_ascii_whitespace`: the non-empty maximal runs of
non-whitespace characters. -/
def splitAsciiWhitespace (s : List Char) : List (List Char) :=
  splitWsAux s []

/-- `s.trim().is_empty()`: every character of `s` is whitespace.  (The claims
only involve ASCII strings, for which `str::trim` and the ASCII whitespace
set agree.) -/
def trimIsEmpty (s : List Char) : Bool :=
  s.all isAsciiWhitespace

/-- Rust `str::starts_with(pat)` for a literal pattern. -/
def startsWithL : List Char → List Char → Bool
  | [], _ => true
  | _ :: _, [] => false
  | p :: ps, c :: cs => p = c && startsWithL ps cs

/-- Rust `str::contains(pat)` for a literal pattern (substring search). -/
def containsSub (pat : List Char) : List Char → Bool
  | [] => startsWithL pat []
  | c :: rest => startsWithL pat (c :: rest) || containsSub pat rest

/-- Lexicographic comparison of strings, byte-wise as in Rust `str::cmp`
(UTF-8 byte order coincides with code-point order). -/
def lexCompare : List Char → List Char → Ordering
  | [], [] => .eq
  | [], _ :: _ => .lt
  | _ :: _, [] => .gt
  | a :: xs, b :: ys =>
    match compare a.toNat b.toNat with
    | .eq => lexCompare xs ys
    | o => o

/-! ## Version model (`version.rs`) -/

/-- `Version { major: u16, minor: u16, teeny: u16, pre: Option<Box<str>> }`.
The `u16` fields are modelled as `Nat`; the range bound appears as an
explicit hypothesis where a claim needs it. -/
structure Version where
  major : Nat
  minor : Nat
  teeny : Nat
  pre : Option (List Char)
deriving DecidableEq, Repr

/-- `pre.starts_with("rc")` as used by the `Ord` impl. -/
def startsWithRc : List Char → Bool
  | 'r' :: 'c' :: _ => true
  | _ => false

/-- The `Ord for Version` implementation: major, minor, teeny numerically,
then the pre-release rule. -/
def Version.cmp (a b : Version) : Ordering :=
  match compare a.major b.major with
  | .eq =>
    match compare a.minor b.minor with
    | .eq =>
      match compare a.teeny b.teeny with
      | .eq =>
        match a.pre, b.pre with
        | none, none => .eq
        | none, some _ => .gt
        | some _, none => .lt
        | some x, some y =>
          match startsWithRc x, startsWithRc y with
          | true, true => lexCompare x y
          | false, false => lexCompare x y
          | true, false => .gt
          | false, true => .lt
      | o => o
    | o => o
  | o => o

/-- Error kinds of Rust's `u16::from_str` (`ParseIntError`). -/
inductive IntErrorKind where
  | empty
  | invalidDigit
  | posOverflow
deriving DecidableEq, Repr

/-- Digit-accumulation loop of `u16::from_str`: reject non-digits, overflow
past `u16::MAX = 65535`. -/
def parseDigits : List Char → Nat → Except IntErrorKind Nat
  | [], acc => .ok acc
  | c :: rest, acc =>
    if 48 ≤ c.toNat ∧ c.toNat ≤ 57 then
      let acc' := acc * 10 + (c.toNat - 48)
      if 65535 < acc' then .error .posOverflow
      else parseDigits rest acc'
    else .error .invalidDigit

/-- Rust `"…".parse::<u16>()`: empty input is `Empty`, an optional leading
`+` is stripped, then digits accumulate with overflow checking. -/
def parseU16 (s : List Char) : Except IntErrorKind Nat :=
  match s with
  | [] => .error .empty
  | c :: rest =>
    let digits := if c = '+' then rest else s
    match digits with
    | [] => .error .invalidDigit
    | _ => parseDigits digits 0

/-- `VersionParseError` (the variants reachable from `&str` input). -/
inductive VersionParseError where
  | minorMissing
  | teenyMissing
  | majorInt (e : IntErrorKind)
  | minorInt (e : IntErrorKind)
  | teenyInt (e : IntErrorKind)
deriving DecidableEq, Repr

/-- `split_at` helper inside `VersionParser::parse`: split at the first
occurrence of `b`, keeping the remainder after it when present. -/
def splitAtChar (s : List Char) (b : Char) : List Char × Option (List Char) :=
  match memchr b s with
  | some i => (s.take i, some (s.drop (i + 1)))
  | none => (s, none)

/-- `VersionParser { require_minor, require_teeny }`. -/
structure VersionParser where
  require_minor : Bool := false
  require_teeny : Bool := false
deriving DecidableEq, Repr

/-- `VersionParser::parse`, translated arm by arm.

Note the second dot-split's `(remaining, None)` arm: as in the source, `s`
is *not* advanced there, so the final `s.parse()` for the teeny component
re-reads the very same segment that was just parsed as the minor
component. -/
def VersionParser.parse (p : VersionParser) (input : List Char) :
    Except VersionParseError Version :=
  let (s0, pre) := splitAtChar input '-'
  match splitAtChar s0 '.' with
  | (_, none) =>
    if p.require_minor then .error .minorMissing
    else
      match parseU16 s0 with
      | .ok major => .ok ⟨major, 0, 0, pre⟩
      | .error e => .error (.majorInt e)
  | (start, some rest) =>
    match parseU16 start with
    | .error e => .error (.majorInt e)
    | .ok major =>
      match splitAtChar rest '.' with
      | (_, none) =>
        if p.require_teeny then .error .teenyMissing
        else
          match parseU16 rest with
          | .error e => .error (.minorInt e)
          | .ok minor =>
            -- `s` was not advanced: the teeny parse re-reads `rest`.
            match parseU16 rest with
            | .error e => .error (.teenyInt e)
            | .ok teeny => .ok ⟨major, minor, teeny, pre⟩
      | (start2, some rest2) =>
        match parseU16 start2 with
        | .error e => .error (.minorInt e)
        | .ok minor =>
          match parseU16 rest2 with
          | .error e => .error (.teenyInt e)
          | .ok teeny => .ok ⟨major, minor, teeny, pre⟩

/-- The minimal grammar (`VersionParser::new()`). -/
def parseMinimal : List Char → Except VersionParseError Version :=
  VersionParser.parse {}

/-- The require-minor grammar (`require_minor()`). -/
def parseRequireMinor : List Char → Except VersionParseError Version :=
  VersionParser.parse { require_minor := true }

/-- The require-all grammar (`require_all()`). -/
def parseRequireAll : List Char → Except VersionParseError Version :=
  VersionParser.parse { require_minor := true, require_teeny := true }

/-- Decimal digit characters, as produced by Rust's integer `Display`. -/
def digitChar (d : Nat) : Char :=
  match d with
  | 0 => '0' | 1 => '1' | 2 => '2' | 3 => '3' | 4 => '4'
  | 5 => '5' | 6 => '6' | 7 => '7' | 8 => '8' | _ => '9'

/-- Fuel-bounded worker for decimal rendering (structural recursion so that
closed instances evaluate by `decide`/`rfl`; the fuel never runs out because
`n < fuel` is maintained). -/
def natReprFuel (fuel : Nat) (n : Nat) : List Char :=
  match fuel with
  | 0 => []
  | fuel + 1 =>
    if n < 10 then [digitChar n]
    else natReprFuel fuel (n / 10) ++ [digitChar (n % 10)]

/-- Decimal rendering of a natural number (Rust `Display for u16`). -/
def natRepr (n : Nat) : List Char :=
  natReprFuel (n + 1) n

/-- `Display for Version`: `"{major}.{minor}.{teeny}"` plus `"-{pre}"` when
present. -/
def Version.render (v : Version) : List Char :=
  natRepr v.major ++ '.' :: natRepr v.minor ++ '.' :: natRepr v.teeny ++
    (match v.pre with
     | some p => '-' :: p
     | none => [])

/-! ## Archive quirk filter (`archive.rs`) -/

/-- The tar entry kinds distinguished by `is_dir`; everything that is neither
`Regular` nor `Directory` falls under `other` (the `_` arm of the source
match). -/
inductive EntryType where
  | regular
  | directory
  | other
deriving DecidableEq, Repr

/-- `ends_with_slash(name: &[u8; 100])`: find the first NUL and test the byte
before it.  When the NUL is at index 0, the release-mode wrap-around of
`i - 1` makes `name.get(i - 1)` out of bounds, so the comparison is false
(debug builds panic on the overflowing subtraction); when there is no NUL at
all the function returns false. -/
def endsWithSlash (name : List Nat) : Bool :=
  match memchr 0 name with
  | some i => if i = 0 then false else name.get? (i - 1) == some 47
  | none => false

/-- `is_dir(header)`: directory entries are directories, regular files are
directories exactly when their raw name field ends with a slash, everything
else is not. -/
def isDir (kind : EntryType) (name : List Nat) : Bool :=
  match kind with
  | .regular => endsWithSlash name
  | .directory => true
  | .other => false

/-! ## Link-flag translator (`link.rs`)

The embedding covers the translation core of `link` (source lines 83–167):
the platform detection, the primary-string selection and emptiness check,
the dedup set, the runtime-library directive, and the POSIX token dispatch.
The `os_helper` symlink workaround (Linux-only I/O prologue) and the
unconditional `lib_dir` search-path print that precede it are filesystem
glue specified only at the interface boundary, and the configuration-query
collaborator is modelled as a record of the strings it would return (a query
failure surfaces as a distinct `Exec` error in the source and is not part of
the translation logic).  Directives printed before a later token fails are
not collected: an error outcome carries only the error, as the caller of
the source function observes from its `Result`. -/

/-- `lib_name(lib_flag)`: `&lib_flag[2..]`.  Slicing panics when the token is
shorter than 2 bytes, modelled as `none`. -/
def libName (flag : List Char) : Option (List Char) :=
  if 2 ≤ flag.length then some (flag.drop 2) else none

/-- `lib_name_msvc(lib_flag)`: `&lib_flag[..len - 4]`.  The subtraction
underflows (and in any build mode the slice is out of range) when the token
is shorter than 4 bytes, modelled as `none`. -/
def libNameMsvc (flag : List Char) : Option (List Char) :=
  if 4 ≤ flag.length then some (flag.take (flag.length - 4)) else none

/-- A structured link directive, one per `cargo:` line the source prints. -/
inductive Directive where
  | statLib (name : List Char)
  | dynamic (name : List Char)
  | framework (name : List Char)
  | searchNative (path : List Char)
  | searchFramework (path : List Char)
deriving DecidableEq, Repr

/-- `RubyLinkError` variants produced by the translation core. -/
inductive LinkErr where
  | unknownFlags (args : List Char)
  | missingFramework (args : List Char)
  | missingLibs (staticLib : Bool)
deriving DecidableEq, Repr

/-- Outcome of the translation core: the directive sequence, a structured
error, or a process abort (panic) from the slicing in the name extractors. -/
inductive LinkResult where
  | ok (directives : List Directive)
  | err (e : LinkErr)
  | panicked
deriving DecidableEq, Repr

/-- The configuration values `link` queries from the installed runtime
(`RbConfig::CONFIG` keys). -/
structure LinkConfig where
  /-- `CONFIG['target']`. -/
  target : List Char
  /-- `CONFIG['LIBRUBYARG_STATIC']`. -/
  librubyargStatic : List Char
  /-- `CONFIG['LIBRUBYARG_SHARED']`. -/
  librubyargShared : List Char
  /-- `CONFIG['SOLIBS']`. -/
  soLibs : List Char
  /-- `CONFIG['LIBS']`. -/
  libs : List Char
  /-- `CONFIG['MAINLIBS']`. -/
  mainLibs : List Char
  /-- `CONFIG['RUBY_SO_NAME']`. -/
  rubySoName : List Char
deriving DecidableEq, Repr

/-- `target.contains("msvc") || target.contains("mswin")`. -/
def targetMsvcOf (cfg : LinkConfig) : Bool :=
  containsSub ['m', 's', 'v', 'c'] cfg.target ||
    containsSub ['m', 's', 'w', 'i', 'n'] cfg.target

/-- The primary link-argument string selected by `static_lib`
(`LIBRUBYARG_STATIC` vs `LIBRUBYARG_SHARED`). -/
def argsOf (cfg : LinkConfig) (staticLib : Bool) : List Char :=
  if staticLib then cfg.librubyargStatic else cfg.librubyargShared

/-- `aux_libs(static_lib)`: `MAINLIBS` when linking statically, `LIBS`
otherwise. -/
def auxRawOf (cfg : LinkConfig) (staticLib : Bool) : List Char :=
  if staticLib then cfg.mainLibs else cfg.libs

/-- The literal string `"nil"`. -/
def nilStr : List Char := ['n', 'i', 'l']

/-- The `aux_libs != "nil"` guard: the exact value `"nil"` is replaced by the
empty string. -/
def effectiveAux (auxRaw : List Char) : List Char :=
  if auxRaw ≠ nilStr then auxRaw else []

/-- `ruby.lib_name(static_lib)`: `RUBY_SO_NAME` plus `"-static"` when linking
statically. -/
def rubyLibOf (cfg : LinkConfig) (staticLib : Bool) : List Char :=
  cfg.rubySoName ++
    (if staticLib then ['-', 's', 't', 'a', 't', 'i', 'c'] else [])

/-- The name extractor selected by the platform. -/
def libNameSel (cfg : LinkConfig) : List Char → Option (List Char) :=
  if targetMsvcOf cfg then libNameMsvc else libName

/-- Keep-first deduplication: the membership behaviour of the `HashSet`
(insertion of a repeated name is a no-op).  Iteration order of a `HashSet`
is unspecified; the model fixes insertion order, and no claim depends on
the relative order of two distinct dedup-set members. -/
def dedupFirst (seen : List (List Char)) : List (List Char) → List (List Char)
  | [] => []
  | x :: xs =>
    if x ∈ seen then dedupFirst seen xs
    else x :: dedupFirst (x :: seen) xs

/-- Apply a fallible extractor to every element, stopping at the first
failure (the iterator panics at the first bad token). -/
def mapOption {α β : Type} (f : α → Option β) : List α → Option (List β)
  | [] => some []
  | x :: xs =>
    match f x with
    | none => none
    | some y =>
      match mapOption f xs with
      | none => none
      | some ys => some (y :: ys)

/-- `dy_libs`: the deduplicated library names extracted from the
auxiliary-libs tokens followed by the solibs tokens; `none` when any token
makes the extractor panic. -/
def computeDyLibs (cfg : LinkConfig) (staticLib : Bool) :
    Option (List (List Char)) :=
  match mapOption (libNameSel cfg)
      (splitAsciiWhitespace (effectiveAux (auxRawOf cfg staticLib))) with
  | none => none
  | some auxNames =>
    match mapOption (libNameSel cfg) (splitAsciiWhitespace cfg.soLibs) with
    | none => none
    | some soNames => some (dedupFirst [] (auxNames ++ soNames))

/-- `seen_lib(lib)`: the runtime's own library name or a dedup-set member. -/
def seenLib (rubyLib : List Char) (dyLibs : List (List Char))
    (lib : List Char) : Bool :=
  lib = rubyLib || lib ∈ dyLibs

/-- Prepend further emissions to the result of the remaining loop
iterations, propagating an error from them unchanged. -/
def exMap (k : List Directive → List Directive) :
    Except LinkErr (List Directive) → Except LinkErr (List Directive)
  | .error e => .error e
  | .ok out => .ok (k out)

/-- The POSIX token-dispatch loop of `link` (`while let Some(arg) =
args_iter.next()`), returning the directives it emits in order. -/
def argLoop (rubyLib : List Char) (dyLibs : List (List Char))
    (argsStr : List Char) : List (List Char) → Except LinkErr (List Directive)
  | [] => .ok []
  | arg :: rest =>
    if arg.length < 2 then .error (.unknownFlags argsStr)
    else
      let opt := arg.take 2
      let val := arg.drop 2
      if opt = ['-', 'l'] then
        exMap
          (fun out =>
            (if seenLib rubyLib dyLibs val then [] else [.dynamic val]) ++ out)
          (argLoop rubyLib dyLibs argsStr rest)
      else if opt = ['-', 'L'] then
        exMap (fun out => .searchNative val :: out)
          (argLoop rubyLib dyLibs argsStr rest)
      else if opt = ['-', 'F'] then
        exMap (fun out => .searchFramework val :: out)
          (argLoop rubyLib dyLibs argsStr rest)
      else if opt = ['-', 'W'] then
        argLoop rubyLib dyLibs argsStr rest
      else if arg = ['-', 'f', 'r', 'a', 'm', 'e', 'w', 'o', 'r', 'k'] then
        match rest with
        | [] => .error (.missingFramework argsStr)
        | fw :: rest2 =>
          exMap (fun out => .framework fw :: out)
            (argLoop rubyLib dyLibs argsStr rest2)
      else .error (.unknownFlags argsStr)

/-- The translation core of `link` (source lines 83–167). -/
def link (cfg : LinkConfig) (staticLib : Bool) : LinkResult :=
  let targetMsvc := targetMsvcOf cfg
  let args := argsOf cfg staticLib
  if trimIsEmpty args then .err (.missingLibs staticLib)
  else
    match computeDyLibs cfg staticLib with
    | none => .panicked
    | some dyLibs =>
      let rubyLib := rubyLibOf cfg staticLib
      let first : Directive :=
        if staticLib then .statLib rubyLib else .dynamic rubyLib
      let emitted := first :: dyLibs.map .dynamic
      if targetMsvc then .ok emitted
      else
        match argLoop rubyLib dyLibs args (splitAsciiWhitespace args) with
        | .error e => .err e
        | .ok out => .ok (emitted ++ out)

/-! ## Build orchestrator (`builder.rs`, three-stage variant)

The filesystem and the process collaborator are explicit inputs: a
`BuildEnv` says which marker file exists at the moment its stage's skip
predicate is evaluated and what each external command would report if
spawned.  `build` additionally returns the list of stages whose commands
were invoked, which the source performs as side effects. -/

/-- What spawning one external command would yield: a successful exit, a
non-zero exit status, or a spawn failure (modelled error payloads are
opaque numbers). -/
inductive CmdResult where
  | success
  | failure (status : Nat)
  | spawnError (e : Nat)
deriving DecidableEq, Repr

/-- The three stages of `RubyBuilder::build`. -/
inductive Stage where
  | autoconf
  | configure
  | makeInstall
deriving DecidableEq, Repr

/-- The force flags accumulated by the builder configuration. -/
structure BuildCfg where
  forceAutoconf : Bool
  forceConfigure : Bool
  forceMake : Bool
deriving DecidableEq, Repr

/-- The world a single `build` invocation observes. -/
structure BuildEnv where
  /-- `configure_path.exists()`. -/
  configureExists : Bool
  /-- `src_dir.join("Makefile").exists()`. -/
  makefileExists : Bool
  /-- `out_dir/bin/ruby` exists. -/
  binExists : Bool
  autoconfResult : CmdResult
  configureResult : CmdResult
  makeResult : CmdResult
deriving DecidableEq, Repr

/-- `RubyBuildError` of the three-stage builder. -/
inductive RubyBuildError where
  | autoconfSpawnFail (e : Nat)
  | autoconfFail (status : Nat)
  | configureSpawnFail (e : Nat)
  | configureFail (status : Nat)
  | makeSpawnFail (e : Nat)
  | makeFail (status : Nat)
deriving DecidableEq, Repr

/-- The `phase!` macro body: when the stage runs, a non-success status or a
spawn error aborts the build with the corresponding error. -/
def phaseCheck (run : Bool) (res : CmdResult)
    (fail : Nat → RubyBuildError) (spawnFail : Nat → RubyBuildError) :
    Option RubyBuildError :=
  if run then
    match res with
    | .success => none
    | .failure s => some (fail s)
    | .spawnError e => some (spawnFail e)
  else none

/-- `RubyBuilder::build`: the three-stage skip/force cascade.  Returns the
stages whose commands were invoked together with the result; on success the
source packages the `Ruby` handle from the already-known version and
paths. -/
def build (cfg : BuildCfg) (env : BuildEnv) :
    List Stage × Except RubyBuildError Unit :=
  let runAutoconf := cfg.forceAutoconf || !env.configureExists
  let ex1 : List Stage := if runAutoconf then [.autoconf] else []
  match phaseCheck runAutoconf env.autoconfResult .autoconfFail
      .autoconfSpawnFail with
  | some e => (ex1, .error e)
  | none =>
    let runConfigure :=
      runAutoconf || cfg.forceConfigure || !env.makefileExists
    let ex2 := ex1 ++ if runConfigure then [Stage.configure] else []
    match phaseCheck runConfigure env.configureResult .configureFail
        .configureSpawnFail with
    | some e => (ex2, .error e)
    | none =>
      let runMake := runConfigure || cfg.forceMake || !env.binExists
      let ex3 := ex2 ++ if runMake then [Stage.makeInstall] else []
      match phaseCheck runMake env.makeResult .makeFail .makeSpawnFail with
      | some e => (ex3, .error e)
      | none => (ex3, .ok ())

/-! ## Legacy build entry point (`src/builder.rs` of the root crate)

This earlier variant has a `download` flag whose handling is
`unimplemented!()` (a process abort), runs `autoconf` under the same skip
predicate, and then always runs `configure`. -/

/-- Configuration of the legacy builder (fields that steer `build`). -/
structure LegacyBuildCfg where
  download : Bool
  forceAutoconf : Bool
deriving DecidableEq, Repr

/-- The world the legacy `build` observes. -/
structure LegacyBuildEnv where
  configureExists : Bool
  autoconfResult : CmdResult
  configureResult : CmdResult
deriving DecidableEq, Repr

/-- Errors of the legacy builder. -/
inductive LegacyBuildError where
  | autoconfSpawnFail (e : Nat)
  | autoconfFail (status : Nat)
  | configureSpawnFail (e : Nat)
  | configureFail (status : Nat)
deriving DecidableEq, Repr

/-- Outcome of the legacy `build`: success, a structured error, or the
process abort raised by `unimplemented!()`. -/
inductive LegacyOutcome where
  | ok
  | err (e : LegacyBuildError)
  | panicked
deriving DecidableEq, Repr

/-- The legacy `RubyBuilder::build`: aborts on `download`, conditionally
runs `autoconf`, then always runs `configure`. -/
def buildLegacy (cfg : LegacyBuildCfg) (env : LegacyBuildEnv) :
    LegacyOutcome :=
  if cfg.download then .panicked
  else
    let runAutoconf := cfg.forceAutoconf || !env.configureExists
    let autoconfErr : Option LegacyBuildError :=
      if runAutoconf then
        match env.autoconfResult with
        | .success => none
        | .failure s => some (.autoconfFail s)
        | .spawnError e => some (.autoconfSpawnFail e)
      else none
    match autoconfErr with
    | some e => .err e
    | none =>
      match env.configureResult with
      | .success => .ok
      | .failure s => .err (.configureFail s)
      | .spawnError e => .err (.configureSpawnFail e)

/-! ## Spec-side definitions, written from the claims' words -/

/-- The ordering rule exactly as the specification words it (claim C3):
major, minor, teeny numerically; at an equal triple no-pre beats pre; an
`"rc"`-starting tag beats a non-`"rc"` tag; same-class tags compare
lexicographically. -/
def cmpSpec (a b : Version) : Ordering :=
  if a.major ≠ b.major then compare a.major b.major
  else if a.minor ≠ b.minor then compare a.minor b.minor
  else if a.teeny ≠ b.teeny then compare a.teeny b.teeny
  else
    match a.pre, b.pre with
    | none, none => .eq
    | none, some _ => .gt
    | some _, none => .lt
    | some x, some y =>
      if startsWithRc x = startsWithRc y then lexCompare x y
      else if startsWithRc x then .gt
      else .lt

/-- Claim C5's rule for `is_directory`, as the claim words it: for a regular
file, the byte immediately preceding the first NUL — or, when the field has
no NUL, the last byte of the field — must be `/` (47).  When the NUL is the
very first byte there is no preceding byte, so the condition is false. -/
def isDirSpecC5 (kind : EntryType) (name : List Nat) : Bool :=
  match kind with
  | .directory => true
  | .regular =>
    match memchr 0 name with
    | some i => if i = 0 then false else name.get? (i - 1) == some 47
    | none => name.getLast? == some 47
  | .other => false

/-- Claim C5 amended: identical except that a name field containing no NUL
at all is never a directory. -/
def isDirSpecC5Amended (kind : EntryType) (name : List Nat) : Bool :=
  match kind with
  | .directory => true
  | .regular =>
    match memchr 0 name with
    | some i => if i = 0 then false else name.get? (i - 1) == some 47
    | none => false
  | .other => false

/-- Claim C1 as stated: in one invocation of `build`, each stage executes
iff its marker predicate is false, its force flag is set, or a strictly
earlier stage executed; and with every marker present and no force flag the
build executes nothing and succeeds. -/
def c1Claim : Prop :=
  ∀ (cfg : BuildCfg) (env : BuildEnv),
    (Stage.autoconf ∈ (build cfg env).1 ↔
      (env.configureExists = false ∨ cfg.forceAutoconf = true)) ∧
    (Stage.configure ∈ (build cfg env).1 ↔
      (env.makefileExists = false ∨ cfg.forceConfigure = true ∨
        Stage.autoconf ∈ (build cfg env).1)) ∧
    (Stage.makeInstall ∈ (build cfg env).1 ↔
      (env.binExists = false ∨ cfg.forceMake = true ∨
        Stage.autoconf ∈ (build cfg env).1 ∨
        Stage.configure ∈ (build cfg env).1)) ∧
    (env.configureExists = true → env.makefileExists = true →
      env.binExists = true → cfg.forceAutoconf = false →
      cfg.forceConfigure = false → cfg.forceMake = false →
      build cfg env = ([], .ok ()))

/-- Claim C5 as stated, over every declared kind and 100-byte name field. -/
def c5Claim : Prop :=
  ∀ (kind : EntryType) (name : List Nat),
    name.length = 100 → isDir kind name = isDirSpecC5 kind name

/-- Claim C6 as stated: the two library-name extractors are total over
arbitrary tokens, the link translation never aborts, and the legacy
`RubyBuilder::build` is total over all configurations. -/
def c6Claim : Prop :=
  (∀ tok : List Char, (libName tok).isSome = true) ∧
  (∀ tok : List Char, (libNameMsvc tok).isSome = true) ∧
  (∀ (cfg : LinkConfig) (staticLib : Bool),
    link cfg staticLib ≠ .panicked) ∧
  (∀ (cfg : LegacyBuildCfg) (env : LegacyBuildEnv),
    buildLegacy cfg env ≠ .panicked)

/-- The concrete configuration of spec §8 / claim C7: shared linking,
primary flags `"-lruby -lm -L/usr/lib -framework CoreFoundation"`, empty
solibs, auxiliary libs `"-lm"`, runtime library name `ruby`. -/
def c7Config : LinkConfig where
  target := "x86_64-apple-darwin".data
  librubyargStatic := "".data
  librubyargShared := "-lruby -lm -L/usr/lib -framework CoreFoundation".data
  soLibs := "".data
  libs := "-lm".data
  mainLibs := "".data
  rubySoName := "ruby".data

/-- The directive sequence §8 expects for `c7Config`. -/
def c7Expected : List Directive :=
  [.dynamic "ruby".data, .dynamic "m".data,
   .searchNative "/usr/lib".data, .framework "CoreFoundation".data]

/-- Claim C7 as stated: in the POSIX dispatch loop, a `-l<name>` token emits
`Dynamic(name)` iff `name` is not in the dedup set built from solibs and
auxiliary libs; and on the §8 input the emitted sequence is `c7Expected`. -/
def c7Claim : Prop :=
  (∀ (rubyLib : List Char) (dyLibs : List (List Char)) (argsStr : List Char)
      (tokens : List (List Char)) (out : List Directive) (name : List Char),
    argLoop rubyLib dyLibs argsStr tokens = .ok out →
    ('-' :: 'l' :: name) ∈ tokens →
    (Directive.dynamic name ∈ out ↔ name ∉ dyLibs)) ∧
  link c7Config false = .ok c7Expected

/-- A concrete MSVC-style configuration (target contains `"msvc"`), used to
witness the MSVC-path claims. -/
def c8Config : LinkConfig where
  target := "x86_64-pc-windows-msvc".data
  librubyargStatic := "".data
  librubyargShared := "-lruby".data
  soLibs := "".data
  libs := "user32.lib".data
  mainLibs := "".data
  rubySoName := "ruby".data

/-- A configuration whose shared primary link-argument string is all
whitespace, used to witness the empty-primary-string claim. -/
def c9Config : LinkConfig where
  target := "x86_64-apple-darwin".data
  librubyargStatic := "-lruby-static".data
  librubyargShared := "  ".data
  soLibs := "".data
  libs := "".data
  mainLibs := "".data
  rubySoName := "ruby".data

/-! ## Helper lemmas -/

theorem memchr_eq_none {α : Type} [DecidableEq α] (b : α) (s : List α)
    (h : b ∉ s) : memchr b s = none := by
  induction s with
  | nil => rfl
  | cons c rest ih =>
    simp only [List.mem_cons, not_or] at h
    simp [memchr, Ne.symm h.1, ih h.2]

theorem memchr_first {α : Type} [DecidableEq α] (b : α) (xs ys : List α)
    (h : b ∉ xs) : memchr b (xs ++ b :: ys) = some xs.length := by
  induction xs with
  | nil => simp [memchr]
  | cons c rest ih =>
    simp only [List.mem_cons, not_or] at h
    simp [memchr, Ne.symm h.1, ih h.2]

theorem splitAtChar_no_occ (s : List Char) (b : Char) (h : b ∉ s) :
    splitAtChar s b = (s, none) := by
  simp [splitAtChar, memchr_eq_none b s h]

theorem splitAtChar_first (xs ys : List Char) (b : Char) (h : b ∉ xs) :
    splitAtChar (xs ++ b :: ys) b = (xs, some ys) := by
  simp only [splitAtChar, memchr_first b xs ys h, Prod.mk.injEq]
  refine ⟨?_, ?_⟩
  · simp [List.take_left]
  · have h1 : List.drop xs.length (xs ++ b :: ys) = b :: ys :=
      List.drop_left xs (b :: ys)
    rw [← List.drop_drop, h1]
    rfl

theorem digitChar_toNat (d : Nat) (h : d < 10) :
    (digitChar d).toNat = 48 + d := by
  interval_cases d <;> rfl

theorem natReprFuel_congr :
    ∀ (f1 : Nat) (n : Nat), n < f1 → ∀ (f2 : Nat), n < f2 →
      natReprFuel f1 n = natReprFuel f2 n := by
  intro f1
  induction f1 with
  | zero => intro n h; omega
  | succ f1 ih =>
    intro n h f2 h2
    match f2, h2 with
    | f2 + 1, _ =>
      simp only [natReprFuel]
      by_cases h10 : n < 10
      · simp [h10]
      · have hd : n / 10 < n := Nat.div_lt_self (by omega) (by omega)
        simp only [h10, if_false]
        rw [ih (n / 10) (by omega) f2 (by omega)]

theorem natRepr_eq (n : Nat) :
    natRepr n =
      if n < 10 then [digitChar n]
      else natRepr (n / 10) ++ [digitChar (n % 10)] := by
  by_cases h10 : n < 10
  · simp [natRepr, natReprFuel, h10]
  · have hd : n / 10 < n := Nat.div_lt_self (by omega) (by omega)
    have hstep : natRepr n = natReprFuel n (n / 10) ++ [digitChar (n % 10)] := by
      simp only [natRepr, natReprFuel, h10, if_false]
    simp only [h10, if_false]
    rw [hstep, natReprFuel_congr n (n / 10) (by omega) (n / 10 + 1) (by omega)]
    rfl

theorem natRepr_digits :
    ∀ (n : Nat), ∀ c ∈ natRepr n, 48 ≤ c.toNat ∧ c.toNat ≤ 57 := by
  intro n
  induction n using Nat.strong_induction_on with
  | _ n ih =>
    intro c hc
    rw [natRepr_eq] at hc
    by_cases h10 : n < 10
    · simp only [h10, if_true, List.mem_singleton] at hc
      subst hc
      rw [digitChar_toNat n h10]
      omega
    · have hd : n / 10 < n := Nat.div_lt_self (by omega) (by omega)
      simp only [h10, if_false, List.mem_append, List.mem_singleton] at hc
      rcases hc with hc | hc
      · exact ih (n / 10) hd c hc
      · subst hc
        rw [digitChar_toNat (n % 10) (Nat.mod_lt n (by omega))]
        have := Nat.mod_lt n (show 0 < 10 by omega)
        omega

theorem natRepr_ne_nil (n : Nat) : natRepr n ≠ [] := by
  rw [natRepr_eq]
  by_cases h10 : n < 10 <;> simp [h10]

theorem dot_not_mem_natRepr (n : Nat) : '.' ∉ natRepr n := by
  intro h
  exact absurd (natRepr_digits n '.' h) (by decide)

theorem dash_not_mem_natRepr (n : Nat) : '-' ∉ natRepr n := by
  intro h
  exact absurd (natRepr_digits n '-' h) (by decide)

theorem parseDigits_append (xs ys : List Char) :
    ∀ acc, parseDigits (xs ++ ys) acc =
      match parseDigits xs acc with
      | .ok a => parseDigits ys a
      | .error e => .error e := by
  induction xs with
  | nil => intro acc; rfl
  | cons c rest ih =>
    intro acc
    simp only [List.cons_append, parseDigits]
    by_cases hdig : 48 ≤ c.toNat ∧ c.toNat ≤ 57
    · simp only [hdig, if_true]
      by_cases hov : 65535 < acc * 10 + (c.toNat - 48)
      · simp [hov]
      · simp [hov, ih]
    · simp [hdig]

theorem parseDigits_natRepr :
    ∀ (n : Nat) (acc : Nat),
      acc * 10 ^ (natRepr n).length + n ≤ 65535 →
      parseDigits (natRepr n) acc =
        .ok (acc * 10 ^ (natRepr n).length + n) := by
  intro n
  induction n using Nat.strong_induction_on with
  | _ n ih =>
    intro acc hle
    rw [natRepr_eq] at hle ⊢
    by_cases h10 : n < 10
    · simp only [h10, if_true, List.length_singleton, pow_one] at hle ⊢
      have hdig : 48 ≤ (digitChar n).toNat ∧ (digitChar n).toNat ≤ 57 := by
        rw [digitChar_toNat n h10]; omega
      simp only [parseDigits, hdig, and_self, if_true,
        digitChar_toNat n h10]
      have hacc : acc * 10 + (48 + n - 48) = acc * 10 + n := by omega
      rw [hacc]
      simp only [show ¬ 65535 < acc * 10 + n by omega, if_false]
      rw [if_pos (show 48 ≤ 48 + n ∧ 48 + n ≤ 57 by omega)]
    · have hd : n / 10 < n := Nat.div_lt_self (by omega) (by omega)
      have hm : n % 10 < 10 := Nat.mod_lt n (by omega)
      simp only [h10, if_false, List.length_append, List.length_singleton,
        pow_succ] at hle ⊢
      rw [parseDigits_append]
      set L := (natRepr (n / 10)).length with hL
      have hmod : 10 * (n / 10) + n % 10 = n := by omega
      have hsub : acc * 10 ^ L + n / 10 ≤ 65535 := by
        have h1 : (acc * 10 ^ L + n / 10) * 10 ≤ acc * (10 ^ L * 10) + n := by
          have : n / 10 * 10 ≤ n := by omega
          nlinarith [this]
        omega
      rw [ih (n / 10) hd acc hsub]
      have hdig : 48 ≤ (digitChar (n % 10)).toNat ∧
          (digitChar (n % 10)).toNat ≤ 57 := by
        rw [digitChar_toNat _ hm]; omega
      simp only [parseDigits, hdig, and_self, if_true,
        digitChar_toNat _ hm]
      have hacc : (acc * 10 ^ L + n / 10) * 10 + (48 + n % 10 - 48) =
          acc * (10 ^ L * 10) + n := by
        have : 48 + n % 10 - 48 = n % 10 := by omega
        rw [this]
        nlinarith [hmod]
      rw [hacc]
      simp only [show ¬ 65535 < acc * (10 ^ L * 10) + n by omega, if_false]
      rw [if_pos (show 48 ≤ 48 + n % 10 ∧ 48 + n % 10 ≤ 57 by omega)]

theorem parseU16_natRepr (n : Nat) (h : n ≤ 65535) :
    parseU16 (natRepr n) = .ok n := by
  cases hrepr : natRepr n with
  | nil => exact absurd hrepr (natRepr_ne_nil n)
  | cons c cs =>
    have hc : 48 ≤ c.toNat ∧ c.toNat ≤ 57 := by
      apply natRepr_digits n
      rw [hrepr]; exact List.mem_cons_self c cs
    have hplus : c ≠ '+' := by
      intro hP
      subst hP
      exact absurd hc (by decide)
    simp only [parseU16, hplus, if_false]
    have hdig := parseDigits_natRepr n 0 (by simpa using h)
    rw [hrepr] at hdig
    simpa using hdig

theorem parse_split_requireAll (input A B C : List Char)
    (pre : Option (List Char)) (ma mi te : Nat)
    (hsplit : splitAtChar input '-' = (A ++ '.' :: (B ++ '.' :: C), pre))
    (hA : parseU16 A = .ok ma) (hB : parseU16 B = .ok mi)
    (hC : parseU16 C = .ok te)
    (hAdot : '.' ∉ A) (hBdot : '.' ∉ B) :
    parseRequireAll input = .ok ⟨ma, mi, te, pre⟩ := by
  simp only [parseRequireAll, VersionParser.parse, hsplit,
    splitAtChar_first A (B ++ '.' :: C) '.' hAdot,
    splitAtChar_first B C '.' hBdot, hA, hB, hC]

/-! ## Claim C2: render/parse round trip -/

/-- C2: for every `Version` with `u16` components and any pre-release
string — including ones containing `-` — rendering to the canonical
`major.minor.teeny[-pre]` form and re-parsing under the require-all grammar
returns exactly the original version. -/
theorem c2_render_parse_roundtrip :
    ∀ (v : Version), v.major < 65536 → v.minor < 65536 → v.teeny < 65536 →
      parseRequireAll v.render = .ok v := by
  rintro ⟨ma, mi, te, pre⟩ hma hmi hte
  simp only at hma hmi hte
  have hbody :
      '-' ∉ natRepr ma ++ '.' :: (natRepr mi ++ '.' :: natRepr te) := by
    intro h
    simp only [List.mem_append, List.mem_cons] at h
    rcases h with h | h | h | h | h
    · exact dash_not_mem_natRepr ma h
    · exact absurd h (by decide)
    · exact dash_not_mem_natRepr mi h
    · exact absurd h (by decide)
    · exact dash_not_mem_natRepr te h
  cases pre with
  | none =>
    have hrender : Version.render ⟨ma, mi, te, none⟩ =
        natRepr ma ++ '.' :: (natRepr mi ++ '.' :: natRepr te) := by
      simp [Version.render]
    rw [hrender]
    exact parse_split_requireAll _ _ _ _ none ma mi te
      (splitAtChar_no_occ _ '-' hbody)
      (parseU16_natRepr ma (by omega)) (parseU16_natRepr mi (by omega))
      (parseU16_natRepr te (by omega))
      (dot_not_mem_natRepr ma) (dot_not_mem_natRepr mi)
  | some p =>
    have hrender : Version.render ⟨ma, mi, te, some p⟩ =
        (natRepr ma ++ '.' :: (natRepr mi ++ '.' :: natRepr te)) ++
          '-' :: p := by
      simp [Version.render]
    rw [hrender]
    exact parse_split_requireAll _ _ _ _ (some p) ma mi te
      (splitAtChar_first _ p '-' hbody)
      (parseU16_natRepr ma (by omega)) (parseU16_natRepr mi (by omega))
      (parseU16_natRepr te (by omega))
      (dot_not_mem_natRepr ma) (dot_not_mem_natRepr mi)

/-- C2 witness: the round trip evaluated at `1.22.333-rc-1`, whose pre tag
itself contains a `-`. -/
theorem c2_render_parse_roundtrip_witness :
    ((1 : Nat) < 65536 ∧ (22 : Nat) < 65536 ∧ (333 : Nat) < 65536) ∧
    parseRequireAll
        (Version.render ⟨1, 22, 333, some ['r', 'c', '-', '1']⟩) =
      .ok ⟨1, 22, 333, some ['r', 'c', '-', '1']⟩ :=
  ⟨⟨by decide, by decide, by decide⟩,
    c2_render_parse_roundtrip ⟨1, 22, 333, some ['r', 'c', '-', '1']⟩
      (by decide) (by decide) (by decide)⟩

/-! ## Claim C3: the ordering rule -/

/-- C3: `Version` comparison follows the specified rule: major, minor,
teeny numerically; at an equal triple a version without a pre tag beats any
version with one; among two pre tags an `"rc"`-starting tag beats a
non-`"rc"` tag and same-class tags compare lexicographically
(`Version.cmp` agrees with the spec-side `cmpSpec` everywhere). -/
theorem c3_cmp_follows_spec :
    ∀ (a b : Version), Version.cmp a b = cmpSpec a b := by
  have hself : ∀ n : Nat, compare n n = Ordering.eq := fun n =>
    Nat.compare_eq_eq.mpr rfl
  intro a b
  unfold Version.cmp cmpSpec
  rcases Nat.lt_trichotomy a.major b.major with hM | hM | hM
  · simp [Nat.compare_eq_lt.mpr hM, Nat.ne_of_lt hM]
  · rcases Nat.lt_trichotomy a.minor b.minor with hm | hm | hm
    · simp [hM, hself, Nat.compare_eq_lt.mpr hm, Nat.ne_of_lt hm]
    · rcases Nat.lt_trichotomy a.teeny b.teeny with ht | ht | ht
      · simp [hM, hm, hself, Nat.compare_eq_lt.mpr ht, Nat.ne_of_lt ht]
      · simp only [hM, hm, ht, hself, ne_eq, not_true_eq_false,
          if_false, ite_false]
        cases a.pre with
        | none => cases b.pre <;> simp
        | some x =>
          cases b.pre with
          | none => simp
          | some y =>
            cases hx : startsWithRc x <;> cases hy : startsWithRc y <;>
              simp [hx, hy]
      · simp [hM, hm, hself, Nat.compare_eq_gt.mpr ht,
          (Nat.ne_of_lt ht).symm]
    · simp [hM, hself, Nat.compare_eq_gt.mpr hm, (Nat.ne_of_lt hm).symm]
  · simp [Nat.compare_eq_gt.mpr hM, (Nat.ne_of_lt hM).symm]

/-! ## Claim C4: the two-segment default -/

/-- C4: evaluating the parser at the failing input `"3.5"`.  Under both the
minimal and the require-minor grammar the absent teeny segment does *not*
default to 0: the un-advanced cursor makes the teeny parse re-read the minor
segment, yielding `{3, 5, 5}` where the specification promises
`{3, 5, 0}`. -/
theorem c4_two_segment_eval :
    parseMinimal ['3', '.', '5'] = .ok ⟨3, 5, 5, none⟩ ∧
    parseRequireMinor ['3', '.', '5'] = .ok ⟨3, 5, 5, none⟩ ∧
    parseMinimal ['1', '.', '0'] = .ok ⟨1, 0, 0, none⟩ :=
  ⟨rfl, rfl, rfl⟩

/-! ## Claim C5: the archive directory heuristic -/

set_option maxRecDepth 4000

/-- C5 counterexample: the claim's rule is false on the code.  For a
100-byte name field with no NUL at all (here: one hundred `/` bytes) the
claim requires the last byte to be inspected — it is `/`, so the claim says
"directory" — but `ends_with_slash` returns `false` whenever `memchr`
finds no NUL. -/
theorem c5_counterexample : ¬ c5Claim := by
  intro h
  have := h .regular (List.replicate 100 47) (by decide)
  exact absurd this (by decide)

/-- C5 amended: as claimed, except that a name field containing no NUL is
never classified as a directory (and a NUL in the first position has no
preceding byte, hence also `false`). -/
theorem c5_amended_is_dir :
    ∀ (kind : EntryType) (name : List Nat),
      name.length = 100 → isDir kind name = isDirSpecC5Amended kind name := by
  intro kind name _h
  cases kind <;> rfl

/-- C5 amended, witnessed at the spec's own examples: `"foo/bar/\0"` padded
to 100 bytes is a directory, `"foo/bar.txt\0"` padded is not, and a
`Directory`-kind entry always is. -/
theorem c5_amended_is_dir_witness :
    (("foo/bar/".data.map Char.toNat ++ List.replicate 92 0).length = 100 ∧
      isDir .regular ("foo/bar/".data.map Char.toNat ++ List.replicate 92 0) =
        isDirSpecC5Amended .regular
          ("foo/bar/".data.map Char.toNat ++ List.replicate 92 0)) ∧
    isDir .regular ("foo/bar.txt".data.map Char.toNat ++ List.replicate 89 0) =
      isDirSpecC5Amended .regular
        ("foo/bar.txt".data.map Char.toNat ++ List.replicate 89 0) ∧
    isDir .directory (List.replicate 100 65) =
      isDirSpecC5Amended .directory (List.replicate 100 65) :=
  ⟨⟨by decide, c5_amended_is_dir .regular _ (by decide)⟩,
    c5_amended_is_dir .regular _ (by decide),
    c5_amended_is_dir .directory _ (by decide)⟩

/-! ## Claim C6: totality / absence of panics -/

/-- C6 counterexample: the no-panic claim is false on the code.
`lib_name` slices `&lib_flag[2..]` and panics on the one-byte token `"x"`
(so a solibs string `"x"` aborts the whole translation), and the legacy
`RubyBuilder::build` hits `unimplemented!()` whenever the download flag is
set. -/
theorem c6_counterexample : ¬ c6Claim := by
  intro h
  exact absurd (h.1 ['x']) (by decide)

/-- C6 amended: the library-name extractors are total over tokens of at
least 2 (POSIX) respectively 4 (MSVC) bytes; the link translation cannot
abort once every solibs/auxiliary token extracts successfully; and the
legacy `build` is total whenever the download flag is unset. -/
theorem c6_amended_no_panic :
    (∀ tok : List Char, 2 ≤ tok.length → (libName tok).isSome = true) ∧
    (∀ tok : List Char, 4 ≤ tok.length → (libNameMsvc tok).isSome = true) ∧
    (∀ (cfg : LinkConfig) (staticLib : Bool),
      (computeDyLibs cfg staticLib).isSome = true →
      link cfg staticLib ≠ .panicked) ∧
    (∀ (cfg : LegacyBuildCfg) (env : LegacyBuildEnv),
      cfg.download = false → buildLegacy cfg env ≠ .panicked) := by
  refine ⟨?_, ?_, ?_, ?_⟩
  · intro tok h
    simp [libName, h]
  · intro tok h
    simp [libNameMsvc, h]
  · intro cfg staticLib h
    unfold link
    by_cases htrim : trimIsEmpty (argsOf cfg staticLib)
    · simp [htrim]
    · cases hdl : computeDyLibs cfg staticLib with
      | none => rw [hdl] at h; simp at h
      | some dyLibs =>
        simp only [htrim, if_false, hdl]
        by_cases hmsvc : targetMsvcOf cfg
        · simp [hmsvc]
        · simp only [hmsvc, if_false]
          cases argLoop (rubyLibOf cfg staticLib) dyLibs
              (argsOf cfg staticLib)
              (splitAsciiWhitespace (argsOf cfg staticLib)) <;> simp
  · rintro ⟨d, fa⟩ ⟨ce, ar, cr⟩ h
    simp only at h
    subst h
    cases fa <;> cases ce <;> cases ar <;> cases cr <;>
      simp [buildLegacy]

/-- C6 amended, witnessed: `-lm` extracts, `user32.lib` extracts, the §8
link input translates without aborting, and a download-less legacy build
does not abort. -/
theorem c6_amended_no_panic_witness :
    (libName "-lm".data).isSome = true ∧
    (libNameMsvc "user32.lib".data).isSome = true ∧
    link c7Config false ≠ .panicked ∧
    buildLegacy ⟨false, false⟩ ⟨true, .success, .success⟩ ≠ .panicked :=
  ⟨c6_amended_no_panic.1 _ (by decide),
    c6_amended_no_panic.2.1 _ (by decide),
    c6_amended_no_panic.2.2.1 c7Config false (by decide),
    c6_amended_no_panic.2.2.2 _ _ rfl⟩

/-! ## Claim C1: the stage skip/force cascade -/

/-- C1 counterexample: the stage-execution biconditional is false on the
code.  With the configure script missing, the Makefile and binary present,
no force flags, and `autoconf` exiting non-zero, the autoconf stage
executes (so the claim requires the configure stage to execute as well),
but the build aborts and the configure stage never runs. -/
theorem c1_counterexample : ¬ c1Claim := by
  intro h
  have := (h ⟨false, false, false⟩
    ⟨false, true, true, .failure 1, .success, .success⟩).2.1
  exact absurd this (by decide)

/-- C1 amended: the biconditional holds provided every stage command that
runs succeeds; and unconditionally, when the configure script, Makefile and
installed binary all exist and no force flag is set, no stage command runs
and the build returns successfully. -/
theorem c1_amended_cascade :
    ∀ (cfg : BuildCfg) (env : BuildEnv),
      (env.autoconfResult = .success → env.configureResult = .success →
        ((Stage.autoconf ∈ (build cfg env).1 ↔
          (env.configureExists = false ∨ cfg.forceAutoconf = true)) ∧
         (Stage.configure ∈ (build cfg env).1 ↔
          (env.makefileExists = false ∨ cfg.forceConfigure = true ∨
            Stage.autoconf ∈ (build cfg env).1)) ∧
         (Stage.makeInstall ∈ (build cfg env).1 ↔
          (env.binExists = false ∨ cfg.forceMake = true ∨
            Stage.autoconf ∈ (build cfg env).1 ∨
            Stage.configure ∈ (build cfg env).1)))) ∧
      (env.configureExists = true → env.makefileExists = true →
        env.binExists = true → cfg.forceAutoconf = false →
        cfg.forceConfigure = false → cfg.forceMake = false →
        build cfg env = ([], .ok ())) := by
  rintro ⟨fa, fc, fm⟩ ⟨ce, me, be, ar, cr, mr⟩
  constructor
  · rintro rfl rfl
    cases mr <;> cases fa <;> cases fc <;> cases fm <;>
      cases ce <;> cases me <;> cases be <;>
      simp [build, phaseCheck]
  · rintro rfl rfl rfl rfl rfl rfl
    rfl

/-- C1 amended, witnessed: with all three markers present, no force flags
and successful commands, the build runs nothing and succeeds. -/
theorem c1_amended_cascade_witness :
    build ⟨false, false, false⟩ ⟨true, true, true, .success, .success, .success⟩ =
      ([], .ok ()) :=
  (c1_amended_cascade ⟨false, false, false⟩
    ⟨true, true, true, .success, .success, .success⟩).2 rfl rfl rfl rfl rfl rfl

/-! ## Lemmas about the token-dispatch loop and the dedup set -/

theorem take_two_shape (l : List Char) (a b : Char)
    (h : l.take 2 = [a, b]) : l = a :: b :: l.drop 2 := by
  match l with
  | [] => simp at h
  | [x] => simp at h
  | x :: y :: rest =>
    simp only [List.take, List.cons.injEq] at h
    obtain ⟨rfl, rfl, -⟩ := h
    rfl

theorem exMap_eq_error (k : List Directive → List Directive)
    (r : Except LinkErr (List Directive)) (e : LinkErr) :
    exMap k r = .error e ↔ r = .error e := by
  cases r <;> simp [exMap]

theorem exMap_eq_ok (k : List Directive → List Directive)
    (r : Except LinkErr (List Directive)) (out : List Directive) :
    exMap k r = .ok out ↔ ∃ out2, r = .ok out2 ∧ out = k out2 := by
  cases r <;> simp [exMap, eq_comm]

theorem argLoop_error_shape :
    ∀ (n : Nat) (rubyLib : List Char) (dyLibs : List (List Char))
      (argsStr : List Char) (tokens : List (List Char)),
      tokens.length ≤ n →
      ∀ e, argLoop rubyLib dyLibs argsStr tokens = .error e →
        e = .unknownFlags argsStr ∨ e = .missingFramework argsStr := by
  intro n
  induction n with
  | zero =>
    intro rubyLib dyLibs argsStr tokens hlen e h
    cases tokens with
    | nil => simp [argLoop] at h
    | cons arg rest => simp at hlen
  | succ n ih =>
    intro rubyLib dyLibs argsStr tokens hlen e h
    cases tokens with
    | nil => simp [argLoop] at h
    | cons arg rest =>
      simp only [List.length_cons, Nat.succ_le_succ_iff] at hlen
      unfold argLoop at h
      dsimp only at h
      by_cases h2 : arg.length < 2
      · rw [if_pos h2] at h
        exact Or.inl (Except.error.inj h).symm
      · rw [if_neg h2] at h
        by_cases hl : arg.take 2 = ['-', 'l']
        · rw [if_pos hl, exMap_eq_error] at h
          exact ih rubyLib dyLibs argsStr rest hlen e h
        · rw [if_neg hl] at h
          by_cases hL : arg.take 2 = ['-', 'L']
          · rw [if_pos hL, exMap_eq_error] at h
            exact ih rubyLib dyLibs argsStr rest hlen e h
          · rw [if_neg hL] at h
            by_cases hF : arg.take 2 = ['-', 'F']
            · rw [if_pos hF, exMap_eq_error] at h
              exact ih rubyLib dyLibs argsStr rest hlen e h
            · rw [if_neg hF] at h
              by_cases hW : arg.take 2 = ['-', 'W']
              · rw [if_pos hW] at h
                exact ih rubyLib dyLibs argsStr rest hlen e h
              · rw [if_neg hW] at h
                by_cases hfw :
                    arg = ['-', 'f', 'r', 'a', 'm', 'e', 'w', 'o', 'r', 'k']
                · rw [if_pos hfw] at h
                  cases rest with
                  | nil => exact Or.inr (Except.error.inj h).symm
                  | cons fw rest2 =>
                    rw [exMap_eq_error] at h
                    refine ih rubyLib dyLibs argsStr rest2 ?_ e h
                    simp at hlen
                    omega
                · rw [if_neg hfw] at h
                  exact Or.inl (Except.error.inj h).symm

theorem seenLib_true_iff (rubyLib : List Char) (dyLibs : List (List Char))
    (v : List Char) :
    seenLib rubyLib dyLibs v = true ↔ (v = rubyLib ∨ v ∈ dyLibs) := by
  simp [seenLib]

theorem argLoop_dynamic_mem :
    ∀ (rubyLib : List Char) (dyLibs : List (List Char)) (argsStr : List Char)
      (tokens : List (List Char)) (out : List Directive) (name : List Char),
      ['-', 'f', 'r', 'a', 'm', 'e', 'w', 'o', 'r', 'k'] ∉ tokens →
      argLoop rubyLib dyLibs argsStr tokens = .ok out →
      (Directive.dynamic name ∈ out ↔
        (('-' :: 'l' :: name) ∈ tokens ∧
          ¬ (name = rubyLib ∨ name ∈ dyLibs))) := by
  intro rubyLib dyLibs argsStr tokens
  induction tokens with
  | nil =>
    intro out name _ h
    simp only [argLoop] at h
    obtain rfl := (Except.ok.inj h).symm
    simp
  | cons arg rest ih =>
    intro out name hfw h
    have hfwR : ['-', 'f', 'r', 'a', 'm', 'e', 'w', 'o', 'r', 'k'] ∉ rest :=
      fun hx => hfw (List.mem_cons_of_mem _ hx)
    have hfwA : arg ≠ ['-', 'f', 'r', 'a', 'm', 'e', 'w', 'o', 'r', 'k'] :=
      fun hx => hfw (hx ▸ List.mem_cons_self _ _)
    unfold argLoop at h
    dsimp only at h
    by_cases h2 : arg.length < 2
    · rw [if_pos h2] at h
      exact absurd h (by simp)
    · rw [if_neg h2] at h
      by_cases hl : arg.take 2 = ['-', 'l']
      · rw [if_pos hl, exMap_eq_ok] at h
        obtain ⟨out2, hrest, rfl⟩ := h
        have harg : arg = '-' :: 'l' :: arg.drop 2 := take_two_shape arg _ _ hl
        have hcons : (('-' :: 'l' :: name) = arg) ↔ name = arg.drop 2 := by
          constructor
          · intro hx
            rw [harg] at hx
            injection hx with _ hx
            injection hx
          · intro hx
            rw [hx]
            exact harg.symm
        have hIH := ih out2 name hfwR hrest
        by_cases hseen : seenLib rubyLib dyLibs (arg.drop 2)
        · have hseenP := (seenLib_true_iff rubyLib dyLibs (arg.drop 2)).mp hseen
          rw [if_pos hseen]
          simp only [List.nil_append, List.mem_cons, hcons, hIH]
          constructor
          · rintro ⟨hmem, hns⟩
            exact ⟨Or.inr hmem, hns⟩
          · rintro ⟨hmem, hns⟩
            rcases hmem with rfl | hmem
            · exact absurd hseenP hns
            · exact ⟨hmem, hns⟩
        · have hseenP : ¬ (arg.drop 2 = rubyLib ∨ arg.drop 2 ∈ dyLibs) :=
            fun hx => hseen ((seenLib_true_iff rubyLib dyLibs _).mpr hx)
          rw [if_neg hseen]
          simp only [List.singleton_append, List.mem_cons, hcons, hIH,
            Directive.dynamic.injEq]
          constructor
          · rintro (rfl | ⟨hmem, hns⟩)
            · exact ⟨Or.inl rfl, hseenP⟩
            · exact ⟨Or.inr hmem, hns⟩
          · rintro ⟨hmem, hns⟩
            rcases hmem with rfl | hmem
            · exact Or.inl rfl
            · exact Or.inr ⟨hmem, hns⟩
      · rw [if_neg hl] at h
        have hne : ('-' :: 'l' :: name) ≠ arg := by
          intro he
          exact hl (by rw [← he]; rfl)
        by_cases hL : arg.take 2 = ['-', 'L']
        · rw [if_pos hL, exMap_eq_ok] at h
          obtain ⟨out2, hrest, rfl⟩ := h
          simp only [List.mem_cons, hne, false_or, ih out2 name hfwR hrest]
          simp
        · rw [if_neg hL] at h
          by_cases hF : arg.take 2 = ['-', 'F']
          · rw [if_pos hF, exMap_eq_ok] at h
            obtain ⟨out2, hrest, rfl⟩ := h
            simp only [List.mem_cons, hne, false_or, ih out2 name hfwR hrest]
            simp
          · rw [if_neg hF] at h
            by_cases hW : arg.take 2 = ['-', 'W']
            · rw [if_pos hW] at h
              simp only [List.mem_cons, hne, false_or, ih out name hfwR h]
            · rw [if_neg hW, if_neg hfwA] at h
              exact absurd h (by simp)

theorem mapOption_mem {α β : Type} (f : α → Option β) :
    ∀ (l : List α) (ys : List β) (x : α) (y : β),
      mapOption f l = some ys → x ∈ l → f x = some y → y ∈ ys := by
  intro l
  induction l with
  | nil => intro ys x y _ hx; simp at hx
  | cons a l ih =>
    intro ys x y h hx hfx
    unfold mapOption at h
    cases hfa : f a with
    | none => rw [hfa] at h; simp at h
    | some b =>
      rw [hfa] at h
      cases hml : mapOption f l with
      | none => rw [hml] at h; simp at h
      | some ys2 =>
        rw [hml] at h
        obtain rfl := (Option.some.inj h).symm
        rcases List.mem_cons.mp hx with rfl | hx2
        · rw [hfa] at hfx
          obtain rfl := Option.some.inj hfx
          exact List.mem_cons_self _ _
        · exact List.mem_cons_of_mem _ (ih ys2 x y hml hx2 hfx)

theorem dedupFirst_complete :
    ∀ (l : List (List Char)) (seen : List (List Char)) (x : List Char),
      x ∈ l → x ∈ dedupFirst seen l ∨ x ∈ seen := by
  intro l
  induction l with
  | nil => intro seen x hx; simp at hx
  | cons a l ih =>
    intro seen x hx
    unfold dedupFirst
    rcases List.mem_cons.mp hx with rfl | hx2
    · by_cases ha : x ∈ seen
      · exact Or.inr ha
      · rw [if_neg ha]
        exact Or.inl (List.mem_cons_self _ _)
    · by_cases ha : a ∈ seen
      · rw [if_pos ha]
        exact ih seen x hx2
      · rw [if_neg ha]
        rcases ih (a :: seen) x hx2 with hd | hs
        · exact Or.inl (List.mem_cons_of_mem _ hd)
        · rcases List.mem_cons.mp hs with rfl | hs2
          · exact Or.inl (List.mem_cons_self _ _)
          · exact Or.inr hs2

/-! ## Claim C7: the -l dedup rule and the §8 sequence -/

/-- C7 counterexample: the dedup biconditional is false on the code.  For
the single token `-lruby` with an *empty* dedup set, the claim says
`Dynamic(ruby)` must be emitted by the dispatch (`ruby` is not in the set),
but `seen_lib` also suppresses the runtime's own library name, so the loop
emits nothing. -/
theorem c7_counterexample : ¬ c7Claim := by
  intro h
  have := h.1 "ruby".data [] [] [['-', 'l', 'r', 'u', 'b', 'y']] []
    "ruby".data rfl (by decide)
  exact absurd this (by decide)

/-- C7 amended: a `-l<name>` token examined by the dispatch loop emits
`Dynamic(name)` iff `name` is neither the runtime's own library name nor in
the dedup set — stated for primary strings without a literal `-framework`
token, since `-framework` consumes its follower verbatim; and on the §8
input the emitted sequence is exactly `c7Expected`. -/
theorem c7_amended_dispatch :
    (∀ (rubyLib : List Char) (dyLibs : List (List Char)) (argsStr : List Char)
        (tokens : List (List Char)) (out : List Directive) (name : List Char),
      ['-', 'f', 'r', 'a', 'm', 'e', 'w', 'o', 'r', 'k'] ∉ tokens →
      argLoop rubyLib dyLibs argsStr tokens = .ok out →
      (Directive.dynamic name ∈ out ↔
        (('-' :: 'l' :: name) ∈ tokens ∧
          ¬ (name = rubyLib ∨ name ∈ dyLibs)))) ∧
    link c7Config false = .ok c7Expected :=
  ⟨argLoop_dynamic_mem, rfl⟩

/-- C7 amended, witnessed on tokens `-lm -L/u` with an empty dedup set and
runtime library `ruby`: `Dynamic(m)` is emitted. -/
theorem c7_amended_dispatch_witness :
    Directive.dynamic ['m'] ∈
        [Directive.dynamic ['m'], Directive.searchNative ['/', 'u']] ↔
      (('-' :: 'l' :: ['m']) ∈ [['-', 'l', 'm'], ['-', 'L', '/', 'u']] ∧
        ¬ (['m'] = "ruby".data ∨ ['m'] ∈ ([] : List (List Char)))) :=
  c7_amended_dispatch.1 "ruby".data [] "-lm -L/u".data
    [['-', 'l', 'm'], ['-', 'L', '/', 'u']]
    [Directive.dynamic ['m'], Directive.searchNative ['/', 'u']]
    ['m'] (by decide) rfl

/-! ## Claim C8: the MSVC path never parses the primary string -/

/-- C8: on an MSVC-style target the translator never parses the primary
link-argument string: once the emptiness check passes and the dedup set is
built, the result is success — the runtime's own library directive followed
by the dedup set — regardless of the primary string's content, and the only
structured error the MSVC path can return is the empty-primary-string one
(never `UnknownFlags` or `MissingFramework`). -/
theorem c8_msvc_no_primary_parse :
    ∀ (cfg : LinkConfig) (staticLib : Bool),
      targetMsvcOf cfg = true →
      ((trimIsEmpty (argsOf cfg staticLib) = false →
        ∀ dyLibs, computeDyLibs cfg staticLib = some dyLibs →
        link cfg staticLib = .ok
          ((if staticLib then Directive.statLib (rubyLibOf cfg staticLib)
            else Directive.dynamic (rubyLibOf cfg staticLib)) ::
            dyLibs.map Directive.dynamic)) ∧
      (∀ e, link cfg staticLib = .err e → e = .missingLibs staticLib)) := by
  intro cfg staticLib hmsvc
  constructor
  · intro htrim dyLibs hdl
    simp [link, htrim, hdl, hmsvc]
  · intro e h
    by_cases htrim : trimIsEmpty (argsOf cfg staticLib)
    · simp [link, htrim] at h
      exact h.symm
    · exfalso
      cases hdl : computeDyLibs cfg staticLib with
      | none => simp [link, htrim, hdl] at h
      | some dyLibs => simp [link, htrim, hdl, hmsvc] at h

/-- C8 witness: the MSVC configuration `c8Config` (static off) succeeds and
emits `Dynamic(ruby)` followed by `Dynamic(user32)`. -/
theorem c8_msvc_no_primary_parse_witness :
    targetMsvcOf c8Config = true ∧
    link c8Config false = .ok
      ((if false then Directive.statLib (rubyLibOf c8Config false)
        else Directive.dynamic (rubyLibOf c8Config false)) ::
        ["user32".data].map Directive.dynamic) :=
  ⟨by decide,
    (c8_msvc_no_primary_parse c8Config false (by decide)).1 (by decide)
      ["user32".data] rfl⟩

/-! ## Claim C9: the empty primary string -/

/-- C9: the translator returns `MissingLibs` carrying the requested
`static_lib` flag exactly when the primary link-argument string selected by
that flag contains no non-whitespace character — and in no other case. -/
theorem c9_empty_primary :
    ∀ (cfg : LinkConfig) (staticLib : Bool),
      (trimIsEmpty (argsOf cfg staticLib) = true →
        link cfg staticLib = .err (.missingLibs staticLib)) ∧
      (∀ b, link cfg staticLib = .err (.missingLibs b) →
        b = staticLib ∧ trimIsEmpty (argsOf cfg staticLib) = true) := by
  intro cfg staticLib
  constructor
  · intro h
    simp [link, h]
  · intro b h
    by_cases htrim : trimIsEmpty (argsOf cfg staticLib)
    · refine ⟨?_, htrim⟩
      simp [link, htrim] at h
      exact h.symm
    · exfalso
      cases hdl : computeDyLibs cfg staticLib with
      | none => simp [link, htrim, hdl] at h
      | some dyLibs =>
        by_cases hmsvc : targetMsvcOf cfg
        · simp [link, htrim, hdl, hmsvc] at h
        · cases hloop : argLoop (rubyLibOf cfg staticLib) dyLibs
              (argsOf cfg staticLib)
              (splitAsciiWhitespace (argsOf cfg staticLib)) with
          | ok out => simp [link, htrim, hdl, hmsvc, hloop] at h
          | error e2 =>
            simp [link, htrim, hdl, hmsvc, hloop] at h
            rcases argLoop_error_shape
                (splitAsciiWhitespace (argsOf cfg staticLib)).length
                (rubyLibOf cfg staticLib) dyLibs (argsOf cfg staticLib)
                (splitAsciiWhitespace (argsOf cfg staticLib)) le_rfl e2
                hloop with h2 | h2 <;>
              rw [h2] at h <;> exact LinkErr.noConfusion h

/-- C9 witness: `c9Config` has an all-whitespace shared primary string and
the translator returns `MissingLibs {static_lib := false}` on it. -/
theorem c9_empty_primary_witness :
    trimIsEmpty (argsOf c9Config false) = true ∧
    link c9Config false = .err (.missingLibs false) :=
  ⟨by decide, (c9_empty_primary c9Config false).1 (by decide)⟩

/-! ## Claim C10: the "nil" auxiliary-libs special case -/

/-- C10: when the auxiliary-libs configuration value is exactly `"nil"` the
translator behaves as if it were empty (the whole translation is unchanged
by replacing it with the empty string), while any other value contributes
the extracted name of each of its whitespace tokens to the dedup set. -/
theorem c10_nil_aux :
    (∀ (cfg : LinkConfig) (staticLib : Bool),
      auxRawOf cfg staticLib = nilStr →
      link cfg staticLib =
        link { cfg with libs := [], mainLibs := [] } staticLib) ∧
    (∀ (cfg : LinkConfig) (staticLib : Bool) (dl : List (List Char))
        (tok nm : List Char),
      auxRawOf cfg staticLib ≠ nilStr →
      computeDyLibs cfg staticLib = some dl →
      tok ∈ splitAsciiWhitespace (auxRawOf cfg staticLib) →
      libNameSel cfg tok = some nm →
      nm ∈ dl) := by
  constructor
  · intro cfg staticLib h
    cases staticLib <;>
      simp_all [link, computeDyLibs, argsOf, auxRawOf, targetMsvcOf,
        rubyLibOf, libNameSel, effectiveAux, nilStr]
  · intro cfg staticLib dl tok nm hne hdl htok hname
    unfold computeDyLibs at hdl
    rw [show effectiveAux (auxRawOf cfg staticLib) = auxRawOf cfg staticLib
      from if_pos hne] at hdl
    cases haux : mapOption (libNameSel cfg)
        (splitAsciiWhitespace (auxRawOf cfg staticLib)) with
    | none => rw [haux] at hdl; simp at hdl
    | some auxNames =>
      rw [haux] at hdl
      cases hso : mapOption (libNameSel cfg)
          (splitAsciiWhitespace cfg.soLibs) with
      | none => rw [hso] at hdl; simp at hdl
      | some soNames =>
        rw [hso] at hdl
        obtain rfl := (Option.some.inj hdl).symm
        have hmem : nm ∈ auxNames :=
          mapOption_mem (libNameSel cfg) _ auxNames tok nm haux htok hname
        rcases dedupFirst_complete (auxNames ++ soNames) [] nm
            (List.mem_append_left _ hmem) with hd | hs
        · exact hd
        · simp at hs

/-- C10 witness: with `LIBS = "nil"` (shared linking) the translation equals
the empty-auxiliary translation, and on the §8 configuration the `-lm`
auxiliary token puts `m` into the dedup set. -/
theorem c10_nil_aux_witness :
    link { c7Config with libs := ['n', 'i', 'l'] } false =
      link { c7Config with libs := [], mainLibs := [] } false ∧
    ['m'] ∈ ["m".data] :=
  ⟨by
    have := c10_nil_aux.1 { c7Config with libs := ['n', 'i', 'l'] } false rfl
    simpa using this,
   c10_nil_aux.2 c7Config false ["m".data] "-lm".data ['m']
     (by decide) rfl (by decide) rfl⟩

end Aloxide
